import Mathlib

/-!
Verification of the fixed-point sine wave generator.

This development shallowly embeds the C sources of the sine wave generator
(fixed-point arithmetic `qmul_uq016`, the quadrant-folded table sine
`qsin_uq016` / `msin_sq015`, the signed/unsigned conversions, the table
integer square root `sqrt_ui16`, and the stateful generator with its
low-amplitude postprocessor) and proves, or refutes, the specification
claims about them.

Conventions of the embedding:
* `uq016_t` / `ui16_t` containers are modelled as `Nat` values; arithmetic
  that the C program performs modulo 2^16 is written with explicit `% 65536`
  (or with `sub16` for wrapping subtraction).
* `sq015_t` values are modelled as `Int`; the C conversion of the out-of-range
  constant `0x8000` to `int16_t` (gcc semantics, two's complement) appears
  as the literal `-32768`.
* counters that the C code keeps in `ui16_t` but provably never grows past
  `0x4000` (the loop guards fire first) are kept as plain `Nat`.
-/

set_option maxRecDepth 8000

namespace SineGen

/-- Wrapping 16-bit subtraction: the value of `(uq016_t)(a - b)` in C, where
the operands are first truncated to their 16-bit containers. -/
def sub16 (a b : Nat) : Nat :=
  (a % 65536 + 65536 - b % 65536) % 65536

/-- Function `qmul_uq016` from the sources: product of two UQ0.16 values, computed in a
32-bit intermediate and truncated (`((ui32_t)a * (ui32_t)b) >> UQ016_FRAC`).
The parameters are `uq016_t`, hence the entry truncation; the shifted result
is below 2^16, so no further output truncation occurs. -/
def qmul_uq016 (a b : Nat) : Nat :=
  (a % 65536) * (b % 65536) / 65536

/-- The 256-entry phase-to-sine lookup table `qsin_lut` from fixtrig.c. -/
def qsin_lut : List Nat :=
  [0x0000, 0x0192, 0x0324, 0x04B6, 0x0648, 0x07DA, 0x096C, 0x0AFE,
   0x0C90, 0x0E21, 0x0FB3, 0x1144, 0x12D5, 0x1466, 0x15F7, 0x1787,
   0x1918, 0x1AA8, 0x1C38, 0x1DC7, 0x1F56, 0x20E5, 0x2274, 0x2402,
   0x2590, 0x271E, 0x28AB, 0x2A38, 0x2BC4, 0x2D50, 0x2EDC, 0x3067,
   0x31F1, 0x337C, 0x3505, 0x368E, 0x3817, 0x399F, 0x3B27, 0x3CAE,
   0x3E34, 0x3FBA, 0x413F, 0x42C3, 0x4447, 0x45CB, 0x474D, 0x48CF,
   0x4A50, 0x4BD1, 0x4D50, 0x4ECF, 0x504D, 0x51CB, 0x5348, 0x54C3,
   0x563E, 0x57B9, 0x5932, 0x5AAA, 0x5C22, 0x5D99, 0x5F0F, 0x6084,
   0x61F8, 0x636B, 0x64DD, 0x664E, 0x67BE, 0x692D, 0x6A9B, 0x6C08,
   0x6D74, 0x6EDF, 0x7049, 0x71B2, 0x731A, 0x7480, 0x75E6, 0x774A,
   0x78AD, 0x7A10, 0x7B70, 0x7CD0, 0x7E2F, 0x7F8C, 0x80E8, 0x8243,
   0x839C, 0x84F5, 0x864C, 0x87A1, 0x88F6, 0x8A49, 0x8B9A, 0x8CEB,
   0x8E3A, 0x8F88, 0x90D4, 0x921F, 0x9368, 0x94B0, 0x95F7, 0x973C,
   0x9880, 0x99C2, 0x9B03, 0x9C42, 0x9D80, 0x9EBC, 0x9FF7, 0xA130,
   0xA268, 0xA39E, 0xA4D2, 0xA605, 0xA736, 0xA866, 0xA994, 0xAAC1,
   0xABEB, 0xAD14, 0xAE3C, 0xAF62, 0xB086, 0xB1A8, 0xB2C9, 0xB3E8,
   0xB505, 0xB620, 0xB73A, 0xB852, 0xB968, 0xBA7D, 0xBB8F, 0xBCA0,
   0xBDAF, 0xBEBC, 0xBFC7, 0xC0D1, 0xC1D8, 0xC2DE, 0xC3E2, 0xC4E4,
   0xC5E4, 0xC6E2, 0xC7DE, 0xC8D9, 0xC9D1, 0xCAC7, 0xCBBC, 0xCCAE,
   0xCD9F, 0xCE8E, 0xCF7A, 0xD065, 0xD14D, 0xD234, 0xD318, 0xD3FB,
   0xD4DB, 0xD5BA, 0xD696, 0xD770, 0xD848, 0xD91E, 0xD9F2, 0xDAC4,
   0xDB94, 0xDC62, 0xDD2D, 0xDDF7, 0xDEBE, 0xDF83, 0xE046, 0xE107,
   0xE1C6, 0xE282, 0xE33C, 0xE3F4, 0xE4AA, 0xE55E, 0xE610, 0xE6BF,
   0xE76C, 0xE817, 0xE8BF, 0xE966, 0xEA0A, 0xEAAB, 0xEB4B, 0xEBE8,
   0xEC83, 0xED1C, 0xEDB3, 0xEE47, 0xEED9, 0xEF68, 0xEFF5, 0xF080,
   0xF109, 0xF18F, 0xF213, 0xF295, 0xF314, 0xF391, 0xF40C, 0xF484,
   0xF4FA, 0xF56E, 0xF5DF, 0xF64E, 0xF6BA, 0xF724, 0xF78C, 0xF7F1,
   0xF854, 0xF8B4, 0xF913, 0xF96E, 0xF9C8, 0xFA1F, 0xFA73, 0xFAC5,
   0xFB15, 0xFB62, 0xFBAD, 0xFBF5, 0xFC3B, 0xFC7F, 0xFCC0, 0xFCFE,
   0xFD3B, 0xFD74, 0xFDAC, 0xFDE1, 0xFE13, 0xFE43, 0xFE71, 0xFE9C,
   0xFEC4, 0xFEEB, 0xFF0E, 0xFF30, 0xFF4E, 0xFF6B, 0xFF85, 0xFF9C,
   0xFFB1, 0xFFC4, 0xFFD4, 0xFFE1, 0xFFEC, 0xFFF5, 0xFFFB, 0xFFFF]

/-- Function `qsin_uq016` from fixtrig.c: first-quadrant sine with LUT lookup and
linear interpolation.  `key0 = phi >> 6` truncated to the `ui8_t` key,
`coef = (phi & 0x3F) << 10`; for `coef = 0` the table value is returned
directly, otherwise the two neighbouring entries are blended, the entry
past the table end standing for the unrepresentable 1.0 (`key1 == 0`). -/
def qsin_uq016 (phi : Nat) : Nat :=
  let key0 := phi % 65536 / 64 % 256
  let coef := phi % 65536 % 64 * 1024
  if coef = 0 then
    qsin_lut.getD key0 0
  else
    let key1 := (key0 + 1) % 256
    let val1 := if key1 = 0 then coef else qmul_uq016 (qsin_lut.getD key1 0) coef
    let val0 := qmul_uq016 (qsin_lut.getD key0 0) (sub16 0 coef)
    (val0 + val1) % 65536

/-- Conversion `sq015_from_uq016` from fixtypes.c: UQ0.16 → SQ0.15 narrowing, a logical
right shift by one bit of the 16-bit container. -/
def sq015_from_uq016 (x : Nat) : Nat :=
  x % 65536 / 2

/-- The quadrant folding of `msin_sq015` (fixtrig.c lines 192-204): bring the
phase into the first quadrant `[0, pi/2)`.  Neither subtraction can wrap:
`phi - 0x8000` is guarded by `phi >= 0x8000`, and `0x8000 - phi1` is guarded
by `0x4000 < phi1 < 0x8000`. -/
def msin_fold (phi : Nat) : Nat :=
  let p := if 0x8000 ≤ phi % 65536 then phi % 65536 - 0x8000 else phi % 65536
  if 0x4000 < p then 0x8000 - p else p

/-- The magnitude computation of `msin_sq015` (fixtrig.c lines 206-216):
table sine of the folded phase, attenuation by `1 - att` (container
`0 - att`) when `att > 0`, and narrowing to SQ0.15 with the round-half-up
rule saturated at `0x7FFF`. -/
def msin_mag (phi1 att : Nat) : Nat :=
  let usin := qsin_uq016 phi1
  let usin := if 0 < att % 65536 then qmul_uq016 usin (sub16 0 att) else usin
  let lsb := usin % 2
  let ssin := sq015_from_uq016 usin
  if lsb = 1 ∧ ssin < 0x7FFF then ssin + 1 else ssin

/-- Function `msin_sq015` from fixtrig.c: the modulated sine.  At exactly pi/2 and
3*pi/2 the saturated values are returned (`_1P = 0x7FFF`; `_1N = 0x8000`
converted to the `int16_t` container is `-32768`); otherwise the phase is
folded into the first quadrant and the sign of the quadrant is applied to
the rounded magnitude. -/
def msin_sq015 (phi att : Nat) : Int :=
  if phi % 65536 = 0x4000 then
    (if att % 65536 = 0 then 0x7FFF else (sq015_from_uq016 (sub16 0 att) : Int))
  else if phi % 65536 = 0xC000 then
    (if att % 65536 = 0 then -0x8000 else -(sq015_from_uq016 (sub16 0 att) : Int))
  else if 0x8000 ≤ phi % 65536 then
    -(msin_mag (msin_fold phi) att : Int)
  else
    (msin_mag (msin_fold phi) att : Int)

/-- Conversion `uq016_from_sq015` from fixtypes.c, with its two assertions modelled as
an `Option`: the first assertion is the SQ0.15 container invariant (the
`int16_t` container holds a value of `[-0x8000, 0x7FFF]` with the sign
propagated), the second is the DomainError contract `x >= 0`; on success the
value is shifted left by one bit. -/
def uq016_from_sq015 (x : Int) : Option Int :=
  if x < -32768 ∨ 32768 ≤ x then none
  else if x < 0 then none
  else some (x * 2)

/-- Conversion `uq022_from_sq021` from fixtypes.c, modelled like `uq016_from_sq015`:
container invariant for SQ0.21 (value in `[-0x200000, 0x1FFFFF]`), then the
DomainError contract `x >= 0`, then shift left by one bit. -/
def uq022_from_sq021 (x : Int) : Option Int :=
  if x < -2097152 ∨ 2097152 ≤ x then none
  else if x < 0 then none
  else some (x * 2)

/-- The table of squares `sqr_lut` from `sqrt_ui16` (sinegen.c). -/
def sqr_lut : List Nat :=
  [0, 1, 4, 9, 16, 25, 36, 49,
   64, 81, 100, 121, 144, 169, 196, 225,
   256, 289, 324, 361, 400, 441, 484, 529,
   576, 625, 676, 729, 784, 841, 900, 961,
   1024, 1089, 1156, 1225, 1296, 1369, 1444, 1521,
   1600, 1681, 1764, 1849, 1936, 2025, 2116, 2209,
   2304, 2401, 2500, 2601, 2704, 2809, 2916, 3025,
   3136, 3249, 3364, 3481, 3600, 3721, 3844, 3969,
   4096, 4225, 4356, 4489, 4624, 4761, 4900, 5041,
   5184, 5329, 5476, 5625, 5776, 5929, 6084, 6241,
   6400, 6561, 6724, 6889, 7056, 7225, 7396, 7569,
   7744, 7921, 8100, 8281, 8464, 8649, 8836, 9025,
   9216, 9409, 9604, 9801, 10000, 10201, 10404, 10609,
   10816, 11025, 11236, 11449, 11664, 11881, 12100, 12321,
   12544, 12769, 12996, 13225, 13456, 13689, 13924, 14161,
   14400, 14641, 14884, 15129, 15376, 15625, 15876, 16129]

/-- The scan loop of `sqrt_ui16`: starting at `key`, find the first table
entry strictly greater than `x` and return `key - 1` for it.  The `fuel`
argument is exactly `128 - key`, so running out of fuel is the loop
condition `key < ARRAY_SIZE(sqr_lut)` turning false, and the result is then
the final `key - 1` as in the C code. -/
def sqrt_loop (x : Nat) : Nat → Nat → Nat
  | 0, key => key - 1
  | fuel + 1, key => if x < sqr_lut.getD key 0 then key - 1 else sqrt_loop x fuel (key + 1)

/-- Function `sqrt_ui16` from sinegen.c: table-based integer square root, scanning the
128 squares from key 0. -/
def sqrt_ui16 (x : Nat) : Nat :=
  sqrt_loop x 128 0

/-- The descriptor `struct gen_descr_t` of the sine wave generator.  The
struct declaration itself is not among the sources; the fields, all 16-bit
state words per the specification, are exactly those accessed by sinegen.c:
configuration (`freq`, `phi`, `att`, `en`) and the postprocessor block. -/
structure GenState where
  freq : Nat
  phi : Nat
  att : Nat
  en : Bool
  pp : Bool
  phi0 : Nat
  phi1 : Nat
  phi2 : Nat
  val0 : Int
  val1 : Int
  val2 : Int
  sampl : Nat
  steps : Nat
  msize : Nat
  asize : Nat
  sidx : Nat
  ridx : Nat
  aidx : Nat
deriving DecidableEq

/-- The two identical search loops of `gen_pp_lookahead` (sinegen.c):
advance `phi1` by `freq` counting `cnt1` until the modulated sine leaves
`val0`, bailing out at the quadrant bound or at a count of `0x4000`.
The bound `phi1 - phi0 >= 0x4000` is compared after integer promotion of the
`uq016_t` operands, so a wrapped-negative difference does not trip it; it is
therefore `phi0 + 0x4000 <= phi1` on the container values.  Returns
`(found, phi1, cnt1, val1)`, where `phi1` and `val1` are the final values of
the descriptor fields written by the loop.  `fuel` is initially `0x4001`;
since the counter guard fires at `cnt1 = 0x4000`, at most `0x4000` recursive
steps occur and the zero-fuel branch (which answers like the guard) is never
taken from that entry.  The counter is kept as a plain `Nat`: its `ui16_t`
container cannot wrap below the `0x4000` guard. -/
def search1 (phi0 freq att : Nat) (val0 : Int) : Nat → Nat → Int → Nat → Bool × Nat × Nat × Int
  | 0, phi1, val1, cnt1 => (false, phi1, cnt1, val1)
  | fuel + 1, phi1, val1, cnt1 =>
    let phi1' := (phi1 + freq) % 65536
    let cnt1' := cnt1 + 1
    if phi0 % 65536 + 0x4000 ≤ phi1' ∨ 0x4000 ≤ cnt1' then (false, phi1', cnt1', val1)
    else
      let v := msin_sq015 phi1' att
      if v ≠ val0 then (true, phi1', cnt1', v)
      else search1 phi0 freq att val0 fuel phi1' v cnt1'

/-- The 16-bit signed wrap of an integer: the value of an `sq015_t` variable
assigned an `int` expression (gcc two's-complement conversion), used for
`dval = val1 - val0` in `gen_pp_lookahead`. -/
def wrap16s (z : Int) : Int :=
  (z + 32768) % 65536 - 32768

/-- Function `gen_pp_lookahead` from sinegen.c.  Asserted preconditions of the C code:
`freq > 0 && freq <= 0x4000` and `pp == 0`. -/
def gen_pp_lookahead (s : GenState) : GenState :=
  if s.en = false then s
  else
    let r1 := search1 s.phi0 s.freq s.att s.val0 0x4001 s.phi0 s.val1 0
    let phi1 := r1.2.1
    let cnt1 := r1.2.2.1
    let val1 := r1.2.2.2
    let s1 := { s with phi1 := phi1, val1 := val1 }
    if r1.1 = false then s1
    else
      let dval := wrap16s (val1 - s.val0)
      if dval < -1 ∨ 1 < dval then s1
      else
        let r2 := search1 phi1 s.freq s.att val1 0x4001 phi1 s.val2 0
        let phi2 := r2.2.1
        let cnt2 := r2.2.2.1
        let val2 := r2.2.2.2
        let s2 := { s1 with phi2 := phi2, val2 := val2 }
        if r2.1 = false then s2
        else
          let sampl := cnt1 + cnt2 / 2
          let steps := sqrt_ui16 sampl
          let s3 := { s2 with sampl := sampl, steps := steps }
          if 2 ≤ steps then
            { s3 with
              pp := true
              phi1 := (phi1 + cnt2 / 2 * s.freq) % 65536
              msize := sampl / steps
              asize := sampl % steps
              sidx := 0
              ridx := sampl - steps / 2 * (sampl / steps)
              aidx := sampl - steps / 2 * (sampl / steps) - sampl % steps }
          else s3

/-- Function `gen_pp_restart` from sinegen.c: re-seed `phi0`/`val0` from the current
phase, deactivate the interval, and re-run the lookahead when the frequency
is nonzero. -/
def gen_pp_restart (s : GenState) : GenState :=
  let s := { s with phi0 := s.phi, val0 := msin_sq015 s.phi s.att, pp := false }
  if 0 < s.freq then gen_pp_lookahead s else s

/-- Function `gen_init` from sinegen.c, applied to an arbitrary prior descriptor
(the C structure is uninitialised memory before `gen_init`). -/
def gen_init (s : GenState) : GenState :=
  gen_pp_restart { s with freq := 0, phi := 0, att := 0, en := false }

/-- Function `gen_set_freq` from sinegen.c.  Asserted precondition: `freq <= 0x4000`. -/
def gen_set_freq (s : GenState) (freq : Nat) : GenState :=
  gen_pp_restart { s with freq := freq }

/-- Function `gen_set_phi` from sinegen.c. -/
def gen_set_phi (s : GenState) (phi : Nat) : GenState :=
  gen_pp_restart { s with phi := phi }

/-- Function `gen_set_att` from sinegen.c. -/
def gen_set_att (s : GenState) (att : Nat) : GenState :=
  gen_pp_restart { s with att := att }

/-- Function `gen_set_pp` from sinegen.c. -/
def gen_set_pp (s : GenState) (en : Bool) : GenState :=
  gen_pp_restart { s with en := en }

/-- Function `gen_output` from sinegen.c: plain modulated sine while no interval is
active; inside the additional step `[aidx, ridx)` the two codes alternate by
the parity of `sidx - aidx`; elsewhere the duty-cycle pattern selects by
position within the main step.  `midx -= asize` is `ui16_t` arithmetic,
hence `sub16`. -/
def gen_output (s : GenState) : Int :=
  if s.pp = false then msin_sq015 s.phi s.att
  else if s.aidx ≤ s.sidx ∧ s.sidx < s.ridx then
    (if (s.sidx - s.aidx) % 2 = 1 then s.val0 else s.val1)
  else
    let midx := if s.ridx ≤ s.sidx then sub16 s.sidx s.asize else s.sidx
    let istep := midx / s.msize
    let iidx := midx % s.msize
    let pidx := iidx % s.steps
    if istep ≤ pidx then s.val0 else s.val1

/-- Function `gen_step` from sinegen.c: advance the phase and the sample index (both
16-bit), roll the interval over when it is exhausted, and run the lookahead
whenever no interval is active. -/
def gen_step (s : GenState) : GenState :=
  if s.freq = 0 then s
  else
    let s := { s with phi := (s.phi + s.freq) % 65536, sidx := (s.sidx + 1) % 65536 }
    let s := if s.pp = true ∧ s.sidx = s.sampl then
               { s with phi0 := s.phi1, val0 := s.val1, pp := false }
             else s
    if s.pp = false then gen_pp_lookahead s else s

/-- The sample emitted `k` steps after state `s` (the consumer reads
`gen_output` then calls `gen_step` once per sample period). -/
def genOutAt (s : GenState) : Nat → Int
  | 0 => gen_output s
  | k + 1 => genOutAt (gen_step s) k

/-- The all-zero descriptor used as the arbitrary pre-`gen_init` memory in
concrete configurations. -/
def zeroState : GenState :=
  ⟨0, 0, 0, false, false, 0, 0, 0, 0, 0, 0, 0, 0, 0, 0, 0, 0, 0⟩

/-- A fully configured generator: `init`, `set_freq`, `set_phi`, `set_att`,
`set_pp` in order, as the test harness does. -/
def genConfig (freq phi att : Nat) (en : Bool) : GenState :=
  gen_set_pp (gen_set_att (gen_set_phi (gen_set_freq (gen_init zeroState) freq) phi) att) en

/-- Coupling invariant for postprocessor neutrality: the pp-enabled
generator `t1` sits at phase 0 of its search origin (`phi0 = 0`,
`val0 = 0`) with `att = 0` and no active interval, the pp-disabled
generator `t2` is identically configured, and the two phases agree.  Under
this invariant every lookahead from `t1` fails (the sine leaves code 0 by
more than one code within one sample), so both generators emit the plain
modulated sine forever. -/
def ppInv (f : Nat) (t1 t2 : GenState) : Prop :=
  t1.pp = false ∧ t1.en = true ∧ t1.freq = f ∧ t1.att = 0 ∧ t1.phi0 = 0 ∧ t1.val0 = 0 ∧
  t2.pp = false ∧ t2.en = false ∧ t2.freq = f ∧ t2.att = 0 ∧ t1.phi = t2.phi

/-- The divisor invariant of an active postprocessing interval: whenever
`pp = 1`, the pattern geometry satisfies `steps >= 2`, `steps² <= sampl`
and `msize = sampl / steps` — which makes every divisor used by
`gen_output` during the interval nonzero. -/
def divInv (s : GenState) : Prop :=
  s.pp = true → 2 ≤ s.steps ∧ s.steps * s.steps ≤ s.sampl ∧ s.msize = s.sampl / s.steps

/-- The generator states reachable through the public interface, each setter
being called within its asserted contract (`freq <= 0x4000`; phase and
attenuation are `uq016_t` parameters and hence below 2^16). -/
inductive Reachable : GenState → Prop
  | init (s : GenState) : Reachable (gen_init s)
  | set_freq (s : GenState) (f : Nat) (hs : Reachable s) (hf : f ≤ 0x4000) :
      Reachable (gen_set_freq s f)
  | set_phi (s : GenState) (p : Nat) (hs : Reachable s) (hp : p < 65536) :
      Reachable (gen_set_phi s p)
  | set_att (s : GenState) (a : Nat) (hs : Reachable s) (ha : a < 65536) :
      Reachable (gen_set_att s a)
  | set_pp (s : GenState) (b : Bool) (hs : Reachable s) : Reachable (gen_set_pp s b)
  | step (s : GenState) (hs : Reachable s) : Reachable (gen_step s)

/-! ## Arithmetic helper lemmas -/

theorem sub16_lt (a b : Nat) : sub16 a b < 65536 := by
  unfold sub16; exact Nat.mod_lt _ (by norm_num)

theorem sub16_zero_eq (b : Nat) (h0 : 0 < b) (hb : b < 65536) : sub16 0 b = 65536 - b := by
  unfold sub16
  rw [Nat.mod_eq_of_lt hb, Nat.zero_mod, Nat.zero_add, Nat.mod_eq_of_lt (by omega)]

theorem sub16_eq_sub (a b : Nat) (ha : a < 65536) (hb : b < 65536) (h : b ≤ a) :
    sub16 a b = a - b := by
  unfold sub16
  rw [Nat.mod_eq_of_lt ha, Nat.mod_eq_of_lt hb]
  omega

theorem qmul_eq (a b : Nat) (ha : a < 65536) (hb : b < 65536) :
    qmul_uq016 a b = a * b / 65536 := by
  unfold qmul_uq016
  rw [Nat.mod_eq_of_lt ha, Nat.mod_eq_of_lt hb]

theorem qmul_lt (a b : Nat) : qmul_uq016 a b < 65536 := by
  unfold qmul_uq016
  have h1 : a % 65536 * (b % 65536) < 65536 * 65536 :=
    Nat.mul_lt_mul_of_lt_of_lt (Nat.mod_lt _ (by norm_num)) (Nat.mod_lt _ (by norm_num))
  exact (Nat.div_lt_iff_lt_mul (by norm_num)).mpr h1

theorem qmul_le_left (a b : Nat) (ha : a < 65536) (hb : b < 65536) : qmul_uq016 a b ≤ a := by
  rw [qmul_eq a b ha hb]
  calc a * b / 65536 ≤ a * 65536 / 65536 :=
        Nat.div_le_div_right (Nat.mul_le_mul_left a (Nat.le_of_lt hb))
    _ = a := Nat.mul_div_cancel a (by norm_num)

theorem qmul_mono (a b c d : Nat) (ha : a < 65536) (hb : b < 65536)
    (hc : c < 65536) (hd : d < 65536) (hac : a ≤ c) (hbd : b ≤ d) :
    qmul_uq016 a b ≤ qmul_uq016 c d := by
  rw [qmul_eq a b ha hb, qmul_eq c d hc hd]
  exact Nat.div_le_div_right (Nat.mul_le_mul hac hbd)

/-- Identity `⌊65535·x/65536⌋ = x - 1` on `1 ≤ x ≤ 65536`: multiplying by the largest
UQ0.16 value loses exactly one unit on this range. -/
theorem mul_65535_div (x : Nat) (h1 : 1 ≤ x) (h2 : x ≤ 65536) :
    65535 * x / 65536 = x - 1 := by
  apply Nat.div_eq_of_lt_le <;> omega

/-! ## Lookup table facts -/

theorem qsin_lut_lt (k : Nat) (hk : k < 256) : qsin_lut.getD k 0 < 65536 :=
  (by decide : ∀ k : Fin 256, qsin_lut.getD k.val 0 < 65536) ⟨k, hk⟩

theorem qsin_lut_lb (k : Nat) (h1 : 1 ≤ k) (hk : k < 256) : 402 ≤ qsin_lut.getD k 0 :=
  (by decide : ∀ k : Fin 256, 1 ≤ k.val → 402 ≤ qsin_lut.getD k.val 0) ⟨k, hk⟩ h1

theorem qmul_zero_left (b : Nat) : qmul_uq016 0 b = 0 := by
  simp [qmul_uq016]

theorem qmul_lut_le (k x : Nat) (hk : k < 256) (h1 : 1 ≤ x) (hx : x < 65536) :
    qmul_uq016 (qsin_lut.getD k 0) x ≤ x - 1 := by
  have hlt := qsin_lut_lt k hk
  rw [qmul_eq _ _ hlt hx]
  calc qsin_lut.getD k 0 * x / 65536 ≤ 65535 * x / 65536 :=
        Nat.div_le_div_right (Nat.mul_le_mul_right x (by omega))
    _ = x - 1 := mul_65535_div x h1 (by omega)

/-! ## Bounds on the first-quadrant sine -/

theorem qsin_lt (phi : Nat) : qsin_uq016 phi < 65536 := by
  simp only [qsin_uq016]
  split
  · exact qsin_lut_lt _ (Nat.mod_lt _ (by norm_num))
  · exact Nat.mod_lt _ (by norm_num)

/-- On the punctured first quadrant `1 <= phi < 0x4000` the table sine is at
least 3 (its minimum is 6, at `phi = 1`); consequently `msin(phi, 0)` is at
least 2 there, which is what makes the first lookahead search bail out
whenever it starts at `phi0 = 0` with `att = 0`. -/
theorem qsin_ge3 (phi : Nat) (h1 : 1 ≤ phi) (h2 : phi < 16384) : 3 ≤ qsin_uq016 phi := by
  have hm : phi % 65536 = phi := Nat.mod_eq_of_lt (by omega)
  have hkdiv : phi / 64 < 256 := by omega
  have hkey : phi / 64 % 256 = phi / 64 := Nat.mod_eq_of_lt hkdiv
  simp only [qsin_uq016, hm, hkey]
  by_cases hc : phi % 64 * 1024 = 0
  · rw [if_pos hc]
    have h64 : phi % 64 = 0 := by omega
    have hq : 1 ≤ phi / 64 := by omega
    have := qsin_lut_lb (phi / 64) hq hkdiv
    omega
  · rw [if_neg hc]
    have hc1 : 1 ≤ phi % 64 := by omega
    have hc2 : phi % 64 ≤ 63 := by omega
    have hclb : 1024 ≤ phi % 64 * 1024 := by
      calc 1024 = 1 * 1024 := by norm_num
        _ ≤ phi % 64 * 1024 := Nat.mul_le_mul_right 1024 hc1
    have hcub : phi % 64 * 1024 ≤ 64512 := by
      calc phi % 64 * 1024 ≤ 63 * 1024 := Nat.mul_le_mul_right 1024 hc2
        _ = 64512 := by norm_num
    have hsub : sub16 0 (phi % 64 * 1024) = 65536 - phi % 64 * 1024 :=
      sub16_zero_eq _ (by omega) (by omega)
    rw [hsub]
    rcases Nat.lt_or_ge (phi / 64) 255 with hk255 | hk255
    · -- key0 <= 254, so key1 = key0 + 1 is a real table key
      have hkey1 : (phi / 64 + 1) % 256 = phi / 64 + 1 := Nat.mod_eq_of_lt (by omega)
      rw [hkey1, if_neg (by omega)]
      rcases Nat.eq_zero_or_pos (phi / 64) with hk0 | hk0
      · -- key0 = 0: the left blend vanishes and the right blend is >= 6
        rw [hk0]
        have hl0 : qsin_lut.getD 0 0 = 0 := by decide
        rw [hl0, qmul_zero_left]
        have hl1 : qsin_lut.getD (0 + 1) 0 = 402 := by decide
        rw [hl1]
        have h6 : qmul_uq016 402 1024 ≤ qmul_uq016 402 (phi % 64 * 1024) :=
          qmul_mono _ _ _ _ (by norm_num) (by norm_num) (by norm_num) (by omega)
            (Nat.le_refl _) hclb
        have hv : qmul_uq016 402 (phi % 64 * 1024) < 65536 := qmul_lt _ _
        have : qmul_uq016 402 1024 = 6 := by decide
        rw [Nat.zero_add, Nat.mod_eq_of_lt hv]
        omega
      · -- 1 <= key0 <= 254: the left blend alone is >= 6 and no wrap occurs
        have hlb := qsin_lut_lb (phi / 64) hk0 hkdiv
        have hub := qsin_lut_lt (phi / 64) hkdiv
        have hv0lb : qmul_uq016 402 1024 ≤
            qmul_uq016 (qsin_lut.getD (phi / 64) 0) (65536 - phi % 64 * 1024) :=
          qmul_mono _ _ _ _ (by norm_num) (by norm_num) hub (by omega) hlb (by omega)
        have h6 : qmul_uq016 402 1024 = 6 := by decide
        have hv0ub : qmul_uq016 (qsin_lut.getD (phi / 64) 0) (65536 - phi % 64 * 1024) ≤
            65536 - phi % 64 * 1024 - 1 :=
          qmul_lut_le _ _ hkdiv (by omega) (by omega)
        have hv1ub : qmul_uq016 (qsin_lut.getD (phi / 64 + 1) 0) (phi % 64 * 1024) ≤
            phi % 64 * 1024 - 1 :=
          qmul_lut_le _ _ (by omega) (by omega) (by omega)
        rw [Nat.mod_eq_of_lt (by omega)]
        omega
    · -- key0 = 255: key1 wraps to 0, the neighbour is the implicit 1.0
      have hk : phi / 64 = 255 := by omega
      rw [hk]
      have hkey1 : (255 + 1) % 256 = 0 := by norm_num
      rw [hkey1, if_pos rfl]
      have hl255 : qsin_lut.getD 255 0 = 65535 := by decide
      rw [hl255, qmul_eq _ _ (by norm_num) (by omega),
          mul_65535_div _ (by omega) (by omega)]
      rw [Nat.mod_eq_of_lt (by omega)]
      omega

/-! ## Bounds on the modulated sine -/

theorem msin_mag_le (p a : Nat) : msin_mag p a ≤ 32767 := by
  simp only [msin_mag, sq015_from_uq016]
  split
  · next h =>
    have := qsin_lt p
    have h2 : qmul_uq016 (qsin_uq016 p) (sub16 0 a) < 65536 := qmul_lt _ _
    rw [Nat.mod_eq_of_lt h2]
    split <;> omega
  · next h =>
    have := qsin_lt p
    rw [Nat.mod_eq_of_lt this]
    split <;> omega

theorem msin_mag_ge2 (p : Nat) (h : 3 ≤ qsin_uq016 p) : 2 ≤ msin_mag p 0 := by
  have hlt := qsin_lt p
  simp only [msin_mag, sq015_from_uq016]
  rw [if_neg (show ¬ 0 < 0 % 65536 by norm_num), Nat.mod_eq_of_lt hlt]
  split <;> omega

theorem msin_le (phi att : Nat) : msin_sq015 phi att ≤ 32767 := by
  simp only [msin_sq015]
  have hs := sub16_lt 0 att
  have hm := msin_mag_le (msin_fold phi) att
  split
  · split
    · norm_num
    · simp only [sq015_from_uq016]
      have : sub16 0 att % 65536 / 2 ≤ 32767 := by omega
      exact_mod_cast this
  · split
    · split
      · norm_num
      · have : (0 : Int) ≤ sq015_from_uq016 (sub16 0 att) := Int.natCast_nonneg _
        omega
    · split
      · have : (0 : Int) ≤ (msin_mag (msin_fold phi) att : Int) := Int.natCast_nonneg _
        omega
      · exact_mod_cast hm

theorem msin_ge (phi att : Nat) : -32768 ≤ msin_sq015 phi att := by
  simp only [msin_sq015]
  have hs := sub16_lt 0 att
  have hm := msin_mag_le (msin_fold phi) att
  split
  · split
    · norm_num
    · have : (0 : Int) ≤ sq015_from_uq016 (sub16 0 att) := Int.natCast_nonneg _
      omega
  · split
    · split
      · norm_num
      · simp only [sq015_from_uq016]
        have : sub16 0 att % 65536 / 2 ≤ 32767 := by omega
        have h2 : ((sub16 0 att % 65536 / 2 : Nat) : Int) ≤ 32767 := by exact_mod_cast this
        omega
    · split
      · have h2 : ((msin_mag (msin_fold phi) att : Nat) : Int) ≤ 32767 := by exact_mod_cast hm
        omega
      · have : (0 : Int) ≤ (msin_mag (msin_fold phi) att : Int) := Int.natCast_nonneg _
        omega

/-- The modulated sine returns the SQ0.15 code `-0x8000` exactly at the one
point `phi = 0xC000`, `att = 0`. -/
theorem msin_eq_neg32768_iff (phi att : Nat) :
    msin_sq015 phi att = -32768 ↔ phi % 65536 = 0xC000 ∧ att % 65536 = 0 := by
  have hmn : (0 : Int) ≤ (msin_mag (msin_fold phi) att : Int) := Int.natCast_nonneg _
  have hmi : ((msin_mag (msin_fold phi) att : Nat) : Int) ≤ 32767 := by
    exact_mod_cast msin_mag_le (msin_fold phi) att
  have hs := sub16_lt 0 att
  have hsq0 : (0 : Int) ≤ (sq015_from_uq016 (sub16 0 att) : Int) := Int.natCast_nonneg _
  have hsq : ((sq015_from_uq016 (sub16 0 att) : Nat) : Int) ≤ 32767 := by
    have h1 : sq015_from_uq016 (sub16 0 att) ≤ 32767 := by
      simp only [sq015_from_uq016]; omega
    exact_mod_cast h1
  simp only [msin_sq015]
  split
  · next h4 =>
    constructor
    · split
      · intro hcon; omega
      · intro hcon; omega
    · rintro ⟨hc, _⟩; omega
  · split
    · next hC =>
      split
      · next hA => simp [hC, hA]
      · next hA =>
        constructor
        · intro hcon; omega
        · rintro ⟨_, hc⟩; exact absurd hc hA
    · next hC =>
      constructor
      · split
        · intro hcon; omega
        · intro hcon; omega
      · rintro ⟨hc, _⟩; exact absurd hc hC

/-! ## The table integer square root -/

theorem sqr_lut_getD (k : Nat) (hk : k < 128) : sqr_lut.getD k 0 = k * k :=
  (by decide : ∀ k : Fin 128, sqr_lut.getD k.val 0 = k.val * k.val) ⟨k, hk⟩

/-- Loop invariant of the `sqrt_ui16` scan: if every key below the current
one has its square at most `x`, the loop returns the floor square root of
`x` (unconditionally a lower witness; the maximality needs `x < 128²`,
because the table ends at `127²`). -/
theorem sqrt_loop_inv (fuel : Nat) : ∀ key x : Nat, key + fuel = 128 →
    (∀ j, j < key → j * j ≤ x) →
    sqrt_loop x fuel key * sqrt_loop x fuel key ≤ x ∧
      (x < 16384 → ∀ k, k * k ≤ x → k ≤ sqrt_loop x fuel key) := by
  induction fuel with
  | zero =>
    intro key x hf hinv
    have hk : key = 128 := by omega
    subst hk
    simp only [sqrt_loop]
    refine ⟨by simpa using hinv 127 (by norm_num), ?_⟩
    intro hx k hk2
    by_contra hlt
    push_neg at hlt
    have : 128 * 128 ≤ k * k := Nat.mul_le_mul (by omega) (by omega)
    omega
  | succ fuel ih =>
    intro key x hf hinv
    simp only [sqrt_loop]
    split
    · next hbr =>
      rw [sqr_lut_getD key (by omega)] at hbr
      have hkey1 : 1 ≤ key := by
        rcases Nat.eq_zero_or_pos key with h0 | h0
        · subst h0; omega
        · exact h0
      constructor
      · have := hinv (key - 1) (by omega)
        exact this
      · intro _ k hk2
        by_contra hlt
        push_neg at hlt
        have : key * key ≤ k * k := Nat.mul_le_mul (by omega) (by omega)
        omega
    · next hbr =>
      push_neg at hbr
      rw [sqr_lut_getD key (by omega)] at hbr
      refine ih (key + 1) x (by omega) ?_
      intro j hj
      rcases Nat.lt_or_ge j key with h | h
      · exact hinv j h
      · have hj' : j = key := by omega
        subst hj'
        exact hbr

theorem sqrt_ui16_sq_le (x : Nat) : sqrt_ui16 x * sqrt_ui16 x ≤ x :=
  (sqrt_loop_inv 128 0 x rfl (fun j hj => absurd hj (Nat.not_lt_zero j))).1

theorem sqrt_ui16_largest (x k : Nat) (hx : x < 16384) (h : k * k ≤ x) : k ≤ sqrt_ui16 x :=
  (sqrt_loop_inv 128 0 x rfl (fun j hj => absurd hj (Nat.not_lt_zero j))).2 hx k h

theorem sqrt_ui16_eq_sqrt (x : Nat) (hx : x < 16384) : sqrt_ui16 x = Nat.sqrt x :=
  Nat.le_antisymm (Nat.le_sqrt.mpr (sqrt_ui16_sq_le x))
    (sqrt_ui16_largest x (Nat.sqrt x) hx (Nat.sqrt_le x))

/-- Beyond the end of the table (`x >= 127²`) the scan falls through and
returns 127. -/
theorem sqrt_loop_last (fuel : Nat) : ∀ key x : Nat, key + fuel = 128 → 16129 ≤ x →
    sqrt_loop x fuel key = 127 := by
  induction fuel with
  | zero =>
    intro key x hf _
    have hk : key = 128 := by omega
    subst hk
    simp [sqrt_loop]
  | succ fuel ih =>
    intro key x hf hx
    simp only [sqrt_loop]
    split
    · next hbr =>
      rw [sqr_lut_getD key (by omega)] at hbr
      have : key * key ≤ 127 * 127 := Nat.mul_le_mul (by omega) (by omega)
      omega
    · exact ih (key + 1) x (by omega) hx

theorem sqrt_ui16_ge2_iff (x : Nat) : 2 ≤ sqrt_ui16 x ↔ 4 ≤ x := by
  constructor
  · intro h
    have := sqrt_ui16_sq_le x
    nlinarith
  · intro h
    rcases Nat.lt_or_ge x 16384 with hx | hx
    · exact sqrt_ui16_largest x 2 hx (by omega)
    · rw [sqrt_ui16, sqrt_loop_last 128 0 x rfl (by omega)]
      norm_num

/-! ## Claim C7: properties of the UQ0.16 multiply -/

/-- C7: for all UQ0.16 values `a`, `b`: `qmul(a, b)` is the exact floor of
`a·b/2^16`; it is commutative; `qmul(a, 0) = 0`; `qmul(a, 0xFFFF) <= a`; and
it is monotone non-decreasing in each argument. -/
theorem C7_qmul_props (a b c d : Nat) (ha : a < 65536) (hb : b < 65536)
    (hc : c < 65536) (hd : d < 65536) :
    qmul_uq016 a b = a * b / 65536 ∧
    qmul_uq016 a b = qmul_uq016 b a ∧
    qmul_uq016 a 0 = 0 ∧
    qmul_uq016 a 0xFFFF ≤ a ∧
    (a ≤ c → b ≤ d → qmul_uq016 a b ≤ qmul_uq016 c d) := by
  refine ⟨qmul_eq a b ha hb, ?_, ?_, ?_, ?_⟩
  · simp [qmul_uq016, Nat.mul_comm]
  · simp [qmul_uq016]
  · exact qmul_le_left a 0xFFFF ha (by norm_num)
  · intro h1 h2
    exact qmul_mono a b c d ha hb hc hd h1 h2

/-- Witness for C7 at `a = 40000`, `b = 50000`, `c = 40001`, `d = 50000`. -/
theorem C7_qmul_props_witness :
    qmul_uq016 40000 50000 = 40000 * 50000 / 65536 ∧
    qmul_uq016 40000 50000 ≤ qmul_uq016 40001 50000 := by
  have h := C7_qmul_props 40000 50000 40001 50000 (by norm_num) (by norm_num)
    (by norm_num) (by norm_num)
  exact ⟨h.1, h.2.2.2.2 (by norm_num) (by norm_num)⟩

/-! ## Claim C8: the table integer square root -/

/-- C8: for `x < 0x4000` the table square root returns the largest `k` with
`k·k <= x`; it is monotone; it inverts squaring below the bound; and the six
quoted values hold. -/
theorem C8_sqrt_props (x y : Nat) (hx : x < 0x4000) (hy : y < 0x4000) :
    (sqrt_ui16 x * sqrt_ui16 x ≤ x ∧ ∀ k, k * k ≤ x → k ≤ sqrt_ui16 x) ∧
    (x ≤ y → sqrt_ui16 x ≤ sqrt_ui16 y) ∧
    (∀ k, k * k < 0x4000 → sqrt_ui16 (k * k) = k) ∧
    sqrt_ui16 0 = 0 ∧ sqrt_ui16 1 = 1 ∧ sqrt_ui16 3 = 1 ∧ sqrt_ui16 4 = 2 ∧
    sqrt_ui16 16128 = 126 ∧ sqrt_ui16 16129 = 127 := by
  refine ⟨⟨sqrt_ui16_sq_le x, fun k h => sqrt_ui16_largest x k hx h⟩, ?_, ?_,
    by decide, by decide, by decide, by decide, by decide, by decide⟩
  · intro hxy
    rw [sqrt_ui16_eq_sqrt x hx, sqrt_ui16_eq_sqrt y hy]
    exact Nat.sqrt_le_sqrt hxy
  · intro k hk
    have h1 : k ≤ sqrt_ui16 (k * k) := sqrt_ui16_largest (k * k) k hk (Nat.le_refl _)
    have h2 := sqrt_ui16_sq_le (k * k)
    nlinarith [Nat.mul_le_mul h1 h1]

/-- Witness for C8 at `x = 10`, `y = 12`, `k = 3`. -/
theorem C8_sqrt_props_witness : 3 ≤ sqrt_ui16 10 ∧ sqrt_ui16 10 ≤ sqrt_ui16 12 := by
  have h := C8_sqrt_props 10 12 (by norm_num) (by norm_num)
  exact ⟨h.1.2 3 (by norm_num), h.2.1 (by norm_num)⟩

/-! ## Claim C9: negative-to-unsigned conversions are rejected -/

/-- C9: on inputs satisfying the container invariant, the same-width
signed-to-unsigned conversions fail (assert) exactly on negative inputs and
otherwise return the input shifted left by one bit. -/
theorem C9_sign_conversions (x y : Int)
    (hx1 : -32768 ≤ x) (hx2 : x < 32768) (hy1 : -2097152 ≤ y) (hy2 : y < 2097152) :
    (uq016_from_sq015 x = none ↔ x < 0) ∧
    (0 ≤ x → uq016_from_sq015 x = some (x * 2)) ∧
    (uq022_from_sq021 y = none ↔ y < 0) ∧
    (0 ≤ y → uq022_from_sq021 y = some (y * 2)) := by
  refine ⟨?_, ?_, ?_, ?_⟩
  · simp only [uq016_from_sq015]
    rw [if_neg (by omega)]
    split <;> simp_all
  · intro h
    simp only [uq016_from_sq015]
    rw [if_neg (by omega), if_neg (by omega)]
  · simp only [uq022_from_sq021]
    rw [if_neg (by omega)]
    split <;> simp_all
  · intro h
    simp only [uq022_from_sq021]
    rw [if_neg (by omega), if_neg (by omega)]

/-- Witness for C9 at `x = 5` (success) and `y = -3` (DomainError). -/
theorem C9_sign_conversions_witness :
    uq016_from_sq015 5 = some 10 ∧ uq022_from_sq021 (-3) = none := by
  have h := C9_sign_conversions 5 (-3) (by norm_num) (by norm_num) (by norm_num) (by norm_num)
  exact ⟨h.2.1 (by norm_num), h.2.2.1.mpr (by norm_num)⟩

/-! ## Claim C3: the round-half-up narrowing inside `msin` -/

/-- The magnitude pipeline of `msin`, rewritten from its container
operations (`sub16`, logical shift) into plain arithmetic: the UQ0.16
magnitude `usin` (attenuated by `1 - att` when `att > 0`) is shifted right
by one, and incremented when the discarded bit is set and the shifted value
is below the positive maximum. -/
theorem msin_mag_spec (p att : Nat) (hatt : att < 65536) :
    msin_mag p att =
      (if 0 < att then qmul_uq016 (qsin_uq016 p) (65536 - att) else qsin_uq016 p) / 2 +
      (if (if 0 < att then qmul_uq016 (qsin_uq016 p) (65536 - att) else qsin_uq016 p) % 2 = 1 ∧
          (if 0 < att then qmul_uq016 (qsin_uq016 p) (65536 - att) else qsin_uq016 p) / 2 < 0x7FFF
        then 1 else 0) := by
  have ha : att % 65536 = att := Nat.mod_eq_of_lt hatt
  simp only [msin_mag, sq015_from_uq016, ha]
  by_cases h0 : 0 < att
  · rw [sub16_zero_eq att h0 hatt, if_pos h0, Nat.mod_eq_of_lt (qmul_lt _ _)]
    split <;> omega
  · rw [if_neg h0, Nat.mod_eq_of_lt (qsin_lt p)]
    split <;> omega

/-- C3: away from the two saturation phases, `msin` computes its SQ0.15
magnitude from the UQ0.16 magnitude `usin` (quadrant folding, table sine,
and, for `att > 0`, multiplication by `1 - att` via `qmul`) by the
round-half-up rule — logical shift right by one, incremented exactly when
the discarded bit is 1 and the shifted value is below `0x7FFF` — and then
applies the quadrant sign. -/
theorem C3_round_half_up (phi att : Nat) (hphi : phi < 65536) (hatt : att < 65536)
    (h4 : phi ≠ 0x4000) (hC : phi ≠ 0xC000) :
    msin_sq015 phi att =
      (if 0x8000 ≤ phi then -1 else 1) *
        ((if 0 < att then qmul_uq016 (qsin_uq016 (msin_fold phi)) (65536 - att)
          else qsin_uq016 (msin_fold phi)) / 2 +
         (if (if 0 < att then qmul_uq016 (qsin_uq016 (msin_fold phi)) (65536 - att)
              else qsin_uq016 (msin_fold phi)) % 2 = 1 ∧
             (if 0 < att then qmul_uq016 (qsin_uq016 (msin_fold phi)) (65536 - att)
              else qsin_uq016 (msin_fold phi)) / 2 < 0x7FFF
           then 1 else 0) : Nat) := by
  have hm : phi % 65536 = phi := Nat.mod_eq_of_lt hphi
  have hkey := msin_mag_spec (msin_fold phi) att hatt
  simp only [msin_sq015, hm]
  rw [if_neg h4, if_neg hC]
  split
  · next h => rw [hkey]; ring
  · next h => rw [hkey]; ring

/-- Witness for C3 at `phi = 0x2000`, `att = 0` (the interior of the first
quadrant, where `usin = 0xB505` rounds up to `0x5A83`). -/
theorem C3_round_half_up_witness :
    msin_sq015 0x2000 0 =
      (if 0x8000 ≤ 0x2000 then -1 else 1) *
        ((if 0 < 0 then qmul_uq016 (qsin_uq016 (msin_fold 0x2000)) (65536 - 0)
          else qsin_uq016 (msin_fold 0x2000)) / 2 +
         (if (if 0 < 0 then qmul_uq016 (qsin_uq016 (msin_fold 0x2000)) (65536 - 0)
              else qsin_uq016 (msin_fold 0x2000)) % 2 = 1 ∧
             (if 0 < 0 then qmul_uq016 (qsin_uq016 (msin_fold 0x2000)) (65536 - 0)
              else qsin_uq016 (msin_fold 0x2000)) / 2 < 0x7FFF
           then 1 else 0) : Nat) :=
  C3_round_half_up 0x2000 0 (by norm_num) (by norm_num) (by norm_num) (by norm_num)

/-! ## Claim C6: symmetries of the modulated sine -/

/-- C6: for every attenuation, `msin` satisfies the half-wave symmetries
`msin(pi - phi, att) = msin(phi, att)` on the open first quadrant,
`msin(pi + phi, att) = -msin(phi, att)` on `(0, pi)` without `pi/2`, and
`msin(0, att) = 0`. -/
theorem C6_symmetries (att : Nat) (hatt : att < 65536) :
    (∀ phi, 0 < phi → phi < 0x4000 →
      msin_sq015 (0x8000 - phi) att = msin_sq015 phi att) ∧
    (∀ phi, 0 < phi → phi < 0x8000 → phi ≠ 0x4000 →
      msin_sq015 (phi + 0x8000) att = -msin_sq015 phi att) ∧
    msin_sq015 0 att = 0 := by
  refine ⟨?_, ?_, ?_⟩
  · intro phi h0 h4
    have hm1 : (0x8000 - phi) % 65536 = 0x8000 - phi := Nat.mod_eq_of_lt (by omega)
    have hm2 : phi % 65536 = phi := Nat.mod_eq_of_lt (by omega)
    have hfold : msin_fold (0x8000 - phi) = msin_fold phi := by
      simp only [msin_fold, hm1, hm2]
      rw [if_neg (show ¬ 0x8000 ≤ 0x8000 - phi by omega),
        if_neg (show ¬ 0x8000 ≤ phi by omega),
        if_pos (show 0x4000 < 0x8000 - phi by omega),
        if_neg (show ¬ 0x4000 < phi by omega)]
      omega
    simp only [msin_sq015, hm1, hm2]
    rw [if_neg (show ¬ (0x8000 - phi = 0x4000) by omega),
      if_neg (show ¬ (phi = 0x4000) by omega),
      if_neg (show ¬ (0x8000 - phi = 0xC000) by omega),
      if_neg (show ¬ (phi = 0xC000) by omega),
      if_neg (show ¬ 0x8000 ≤ 0x8000 - phi by omega),
      if_neg (show ¬ 0x8000 ≤ phi by omega), hfold]
  · intro phi h0 h8 h4
    have hm1 : (phi + 0x8000) % 65536 = phi + 0x8000 := Nat.mod_eq_of_lt (by omega)
    have hm2 : phi % 65536 = phi := Nat.mod_eq_of_lt (by omega)
    have hfold : msin_fold (phi + 0x8000) = msin_fold phi := by
      simp only [msin_fold, hm1, hm2]
      rw [if_pos (show 0x8000 ≤ phi + 0x8000 by omega),
        if_neg (show ¬ 0x8000 ≤ phi by omega), Nat.add_sub_cancel]
    simp only [msin_sq015, hm1, hm2]
    rw [if_neg (show ¬ (phi + 0x8000 = 0x4000) by omega),
      if_neg (show ¬ (phi = 0x4000) from h4),
      if_neg (show ¬ (phi + 0x8000 = 0xC000) by omega),
      if_neg (show ¬ (phi = 0xC000) by omega),
      if_pos (show 0x8000 ≤ phi + 0x8000 by omega),
      if_neg (show ¬ 0x8000 ≤ phi by omega), hfold]
  · have hq : qsin_uq016 0 = 0 := by decide
    have hmag : msin_mag 0 att = 0 := by
      simp only [msin_mag, sq015_from_uq016, hq]
      split
      · rw [qmul_zero_left]
        simp
      · simp
    simp only [msin_sq015]
    rw [if_neg (by norm_num), if_neg (by norm_num), if_neg (by norm_num)]
    have hfold0 : msin_fold 0 = 0 := by decide
    rw [hfold0, hmag]
    rfl

/-- Witness for C6 at `att = 7`, `phi = 0x1234` and `phi = 0x2345`. -/
theorem C6_symmetries_witness :
    msin_sq015 (0x8000 - 0x1234) 7 = msin_sq015 0x1234 7 ∧
    msin_sq015 (0x2345 + 0x8000) 7 = -msin_sq015 0x2345 7 ∧
    msin_sq015 0 7 = 0 := by
  have h := C6_symmetries 7 (by norm_num)
  exact ⟨h.1 0x1234 (by norm_num) (by norm_num),
    h.2.1 0x2345 (by norm_num) (by norm_num) (by norm_num), h.2.2⟩

/-! ## Claim C1: saturation at the quadrant midpoints -/

/-- C1 counterexample: at `phi = 0xC000`, `att = 0` the code returns the
constant `_1N = 0x8000` through the `int16_t` container, which is the SQ0.15
code `-0x8000` (exactly -1.0), not `-0x7FFF` as the claim asserts; in
particular `msin` does return `-0x8000`. -/
theorem C1_counterexample :
    msin_sq015 0xC000 0 = -0x8000 ∧ msin_sq015 0xC000 0 ≠ -0x7FFF := by
  decide

/-- C1 (amended): `msin(0x4000, 0) = 0x7FFF`; `msin(0xC000, 0) = -0x8000`
(the exactly representable -1.0, so the two saturated magnitudes differ at
`att = 0`); for `att > 0`, `msin(0x4000, att)` is `1 - att` narrowed to
SQ0.15 and `msin(0xC000, att)` is its negation; and `msin` returns the code
`-0x8000` exactly at `(phi, att) = (0xC000, 0)`. -/
theorem C1_saturation (phi att : Nat) (hatt : att < 65536) :
    msin_sq015 0x4000 0 = 0x7FFF ∧
    msin_sq015 0xC000 0 = -0x8000 ∧
    (0 < att → msin_sq015 0x4000 att = ((65536 - att) / 2 : Nat) ∧
               msin_sq015 0xC000 att = -((65536 - att) / 2 : Nat)) ∧
    (msin_sq015 phi att = -0x8000 ↔ phi % 65536 = 0xC000 ∧ att % 65536 = 0) := by
  refine ⟨by decide, by decide, ?_, msin_eq_neg32768_iff phi att⟩
  intro h0
  have ha : att % 65536 = att := Nat.mod_eq_of_lt hatt
  have hsub : sub16 0 att = 65536 - att := sub16_zero_eq att h0 hatt
  constructor
  · simp only [msin_sq015, ha, if_true]
    rw [if_neg (show ¬ att = 0 by omega)]
    simp only [sq015_from_uq016, hsub, Nat.mod_eq_of_lt (show 65536 - att < 65536 by omega)]
  · simp only [msin_sq015, ha]
    rw [if_neg (show ¬ ((49152 : Nat) % 65536 = 16384) by norm_num),
      if_pos (trivial : True),
      if_neg (show ¬ att = 0 by omega)]
    simp only [sq015_from_uq016, hsub, Nat.mod_eq_of_lt (show 65536 - att < 65536 by omega)]

/-- Witness for C1 at `att = 2` (and `phi = 0` for the characterisation of
`-0x8000`). -/
theorem C1_saturation_witness :
    msin_sq015 0x4000 2 = ((65536 - 2) / 2 : Nat) ∧ msin_sq015 0 2 ≠ -0x8000 := by
  have h := C1_saturation 0 2 (by norm_num)
  refine ⟨(h.2.2.1 (by norm_num)).1, fun hc => ?_⟩
  have := (h.2.2.2.mp hc).1
  simp at this

/-! ## Claim C2: output inside the additional step -/

/-- C2 counterexample: a state inside the additional step with
`sidx - aidx = 0` (even offset): the claim demands `val0 = 10`, but
`gen_output` evaluates the ternary `(sidx - aidx) & 1 ? val0 : val1` and
returns `val1 = 11` on even offsets. -/
theorem C2_counterexample :
    gen_output ⟨1, 0, 0, true, true, 0, 0, 0, 10, 11, 0, 20, 4, 5, 0, 4, 8, 4⟩ = 11 ∧
    gen_output ⟨1, 0, 0, true, true, 0, 0, 0, 10, 11, 0, 20, 4, 5, 0, 4, 8, 4⟩ ≠ 10 := by
  decide

/-- C2 (amended): during an active interval, for `aidx <= sidx < ridx`,
`gen_output` returns `val0` when `sidx - aidx` is odd and `val1` when it is
even (the converse of the claimed parity). -/
theorem C2_additional_step (s : GenState) (hpp : s.pp = true)
    (h1 : s.aidx ≤ s.sidx) (h2 : s.sidx < s.ridx) :
    gen_output s = if (s.sidx - s.aidx) % 2 = 1 then s.val0 else s.val1 := by
  simp only [gen_output, hpp]
  rw [if_neg (by simp), if_pos ⟨h1, h2⟩]

/-- Witness for C2 at a state with `sidx = 5`, `aidx = 4` (odd offset,
yielding `val0 = 10`). -/
theorem C2_additional_step_witness :
    gen_output ⟨1, 0, 0, true, true, 0, 0, 0, 10, 11, 0, 20, 4, 5, 0, 5, 8, 4⟩ =
      if ((5 : Nat) - 4) % 2 = 1 then 10 else 11 :=
  C2_additional_step ⟨1, 0, 0, true, true, 0, 0, 0, 10, 11, 0, 20, 4, 5, 0, 5, 8, 4⟩
    rfl (by norm_num) (by norm_num)

/-! ## Claim C4: when the lookahead activates -/

/-- C4 counterexample: a state satisfying the claim's precondition
(`pp = 0`, `0 < freq <= 0x4000`, `en = 1`) with `val0 = -0x8000` and
`phi0 = 0x3FFF`: the first search finds `val1 = msin(0x4000, 0) = 0x7FFF`,
so `val1 - val0 = 65535`, far outside `[-1, 1]`; yet the code's `dval` is
that difference squeezed back through the 16-bit `sq015_t` container, which
wraps to `-1`, and the lookahead activates `pp = 1`. -/
theorem C4_counterexample :
    (gen_pp_lookahead
        ⟨1, 0, 0, true, false, 0x3FFF, 0, 0, -0x8000, 0, 0, 0, 0, 0, 0, 0, 0, 0⟩).pp = true ∧
    ¬((gen_pp_lookahead
        ⟨1, 0, 0, true, false, 0x3FFF, 0, 0, -0x8000, 0, 0, 0, 0, 0, 0, 0, 0, 0⟩).val1 -
          (-0x8000 : Int) ≤ 1) := by
  decide

/-- C4 (amended): under the precondition `pp = 0`, `0 < freq <= 0x4000`,
`en = 1`, the lookahead sets `pp = 1` exactly when the first search finds a
code transition within the quadrant and counter bounds, the difference
`val1 - val0` wrapped through the 16-bit signed container lies in `[-1, 1]`,
the second search finds its transition within the analogous bounds, and
`⌊√(cnt1 + cnt2/2)⌋ >= 2`; in every other case it returns leaving `pp = 0`. -/
theorem C4_lookahead_activation (s : GenState) (hpp : s.pp = false)
    (hf0 : 0 < s.freq) (hf1 : s.freq ≤ 0x4000) (hen : s.en = true) :
    (gen_pp_lookahead s).pp = true ↔
      ∃ phi1 cnt1 val1,
        search1 s.phi0 s.freq s.att s.val0 0x4001 s.phi0 s.val1 0 = (true, phi1, cnt1, val1) ∧
        -1 ≤ wrap16s (val1 - s.val0) ∧ wrap16s (val1 - s.val0) ≤ 1 ∧
        ∃ phi2 cnt2 val2,
          search1 phi1 s.freq s.att val1 0x4001 phi1 s.val2 0 = (true, phi2, cnt2, val2) ∧
          2 ≤ Nat.sqrt (cnt1 + cnt2 / 2) := by
  simp only [gen_pp_lookahead, hen]
  rw [if_neg (by simp)]
  rcases h1 : search1 s.phi0 s.freq s.att s.val0 0x4001 s.phi0 s.val1 0 with
    ⟨found1, phi1, cnt1, val1⟩
  dsimp only
  cases found1 with
  | false =>
    rw [if_pos (rfl : (false : Bool) = false)]
    simp only [hpp]
    constructor
    · intro hcon; exact absurd hcon (by simp)
    · rintro ⟨p, c, v, heq, -⟩
      simp at heq
  | true =>
    rw [if_neg (show ¬ ((true : Bool) = false) by simp)]
    by_cases hd : wrap16s (val1 - s.val0) < -1 ∨ 1 < wrap16s (val1 - s.val0)
    · rw [if_pos hd]
      simp only [hpp]
      constructor
      · intro hcon; exact absurd hcon (by simp)
      · rintro ⟨p, c, v, heq, hd1, hd2, -⟩
        simp only [Prod.mk.injEq, true_and] at heq
        rcases heq with ⟨-, -, hv⟩
        subst hv
        omega
    · rw [if_neg hd]
      rcases h2 : search1 phi1 s.freq s.att val1 0x4001 phi1 s.val2 0 with
        ⟨found2, phi2, cnt2, val2⟩
      dsimp only
      cases found2 with
      | false =>
        rw [if_pos (rfl : (false : Bool) = false)]
        simp only [hpp]
        constructor
        · intro hcon; exact absurd hcon (by simp)
        · rintro ⟨p, c, v, heq, -, -, p2, c2, v2, heq2, -⟩
          simp only [Prod.mk.injEq, true_and] at heq
          rcases heq with ⟨hp, hc, hv⟩
          subst hp; subst hc; subst hv
          rw [h2] at heq2
          simp at heq2
      | true =>
        rw [if_neg (show ¬ ((true : Bool) = false) by simp)]
        by_cases hs : 2 ≤ sqrt_ui16 (cnt1 + cnt2 / 2)
        · rw [if_pos hs]
          simp only [true_iff]
          refine ⟨phi1, cnt1, val1, rfl, by omega, by omega, phi2, cnt2, val2, h2, ?_⟩
          exact Nat.le_sqrt.mpr (by
            have h4 : 4 ≤ cnt1 + cnt2 / 2 := (sqrt_ui16_ge2_iff _).mp hs
            omega)
        · rw [if_neg hs]
          simp only [hpp]
          constructor
          · intro hcon; exact absurd hcon (by simp)
          · rintro ⟨p, c, v, heq, -, -, p2, c2, v2, heq2, hsq⟩
            simp only [Prod.mk.injEq, true_and] at heq
            rcases heq with ⟨hp, hc, hv⟩
            subst hp; subst hc; subst hv
            rw [h2] at heq2
            simp only [Prod.mk.injEq, true_and] at heq2
            rcases heq2 with ⟨-, hc2, -⟩
            subst hc2
            have h4 : 2 * 2 ≤ cnt1 + cnt2 / 2 := Nat.le_sqrt.mp hsq
            exact absurd ((sqrt_ui16_ge2_iff _).mpr (by omega)) hs

/-- Witness for C4: the reachable-style state `phi0 = 0x3F9A`,
`val0 = msin(0x3F9A, 0) = 32766`, `freq = 24`, `att = 0`: both searches
succeed (`cnt1 = 1`, `cnt2 = 7`), the wrapped difference is `+1`, and
`⌊√4⌋ = 2`, so the lookahead activates. -/
theorem C4_lookahead_activation_witness :
    (gen_pp_lookahead
        ⟨24, 0x3F9A, 0, true, false, 0x3F9A, 0, 0, 32766, 0, 0, 0, 0, 0, 0, 0, 0, 0⟩).pp =
      true := by
  refine (C4_lookahead_activation
      ⟨24, 0x3F9A, 0, true, false, 0x3F9A, 0, 0, 32766, 0, 0, 0, 0, 0, 0, 0, 0, 0⟩
      rfl (by norm_num) (by norm_num) rfl).mpr
    ⟨16306, 1, 32767, by decide, by decide, by decide,
     16474, 7, 32766, by decide, Nat.le_sqrt.mpr (by norm_num)⟩

/-! ## Claim C5: postprocessor neutrality at `att = 0` -/

/-- At `att = 0` the first sample away from phase 0 already jumps by at
least two SQ0.15 codes (the sine slope at the origin is about three codes
per phase unit). -/
theorem msin_pos_small (f : Nat) (h1 : 1 ≤ f) (h2 : f < 16384) : 2 ≤ msin_sq015 f 0 := by
  have hm : f % 65536 = f := Nat.mod_eq_of_lt (by omega)
  have hfold : msin_fold f = f := by
    simp only [msin_fold, hm]
    rw [if_neg (show ¬ 0x8000 ≤ f by omega), if_neg (show ¬ 0x4000 < f by omega)]
  simp only [msin_sq015, hm]
  rw [if_neg (by omega), if_neg (by omega), if_neg (show ¬ 0x8000 ≤ f by omega), hfold]
  exact_mod_cast msin_mag_ge2 f (qsin_ge3 f h1 h2)

/-- The 16-bit signed wrap is the identity on the `sq015_t` range. -/
theorem wrap16s_id (z : Int) (h1 : -32768 ≤ z) (h2 : z ≤ 32767) : wrap16s z = z := by
  unfold wrap16s
  omega

/-- One unfolding step of the lookahead search loop. -/
theorem search1_step (phi0 freq att : Nat) (val0 : Int) (fuel phi1 cnt1 : Nat) (val1 : Int) :
    search1 phi0 freq att val0 (fuel + 1) phi1 val1 cnt1 =
      (let phi1' := (phi1 + freq) % 65536
       let cnt1' := cnt1 + 1
       if phi0 % 65536 + 0x4000 ≤ phi1' ∨ 0x4000 ≤ cnt1' then (false, phi1', cnt1', val1)
       else
         let v := msin_sq015 phi1' att
         if v ≠ val0 then (true, phi1', cnt1', v)
         else search1 phi0 freq att val0 fuel phi1' v cnt1') :=
  rfl

/-- Starting the search at `phi0 = 0` with `freq = 0x4000`, the very first
sample lands on the quadrant bound and the search bails out. -/
theorem search1_zero_bail (val1 : Int) :
    search1 0 0x4000 0 0 0x4001 0 val1 0 = (false, 0x4000, 1, val1) :=
  rfl

/-- Starting the search at `phi0 = 0`, `val0 = 0` with `att = 0` and
`0 < freq < 0x4000`, the very first sample differs from code 0 and the
search stops there. -/
theorem search1_zero_found (freq : Nat) (val1 : Int) (h1 : 1 ≤ freq) (h2 : freq < 0x4000) :
    search1 0 freq 0 0 0x4001 0 val1 0 = (true, freq, 1, msin_sq015 freq 0) := by
  rw [show (0x4001 : Nat) = 0x4000 + 1 from rfl, search1_step]
  have hm : (0 + freq) % 65536 = freq := by
    rw [Nat.zero_add]
    exact Nat.mod_eq_of_lt (by omega)
  simp only [hm]
  rw [if_neg (by omega)]
  have hne : msin_sq015 freq 0 ≠ 0 := by
    have := msin_pos_small freq h1 h2
    omega
  rw [if_pos hne]

/-- A disabled postprocessor makes the lookahead a no-op. -/
theorem lookahead_en_false (s : GenState) (hen : s.en = false) :
    gen_pp_lookahead s = s := by
  simp [gen_pp_lookahead, hen]

/-- From a search origin at phase 0 with `val0 = 0` and `att = 0` the
lookahead always returns without activating: at `freq = 0x4000` the quadrant
bound trips, and for smaller frequencies the first differing code is at
least 2 away.  Only the scratch fields `phi1`/`val1` are written. -/
theorem lookahead_zero_fail (s : GenState) (hen : s.en = true) (hphi0 : s.phi0 = 0)
    (hval0 : s.val0 = 0) (hatt : s.att = 0) (hf0 : 0 < s.freq) (hf1 : s.freq ≤ 0x4000) :
    (gen_pp_lookahead s).pp = s.pp ∧ (gen_pp_lookahead s).en = s.en ∧
    (gen_pp_lookahead s).freq = s.freq ∧ (gen_pp_lookahead s).phi = s.phi ∧
    (gen_pp_lookahead s).att = s.att ∧ (gen_pp_lookahead s).phi0 = s.phi0 ∧
    (gen_pp_lookahead s).val0 = s.val0 ∧ (gen_pp_lookahead s).sidx = s.sidx := by
  simp only [gen_pp_lookahead, hen]
  rw [if_neg (by simp), hphi0, hval0, hatt]
  rcases Nat.lt_or_ge s.freq 0x4000 with hlt | hge
  · rw [search1_zero_found s.freq s.val1 hf0 hlt]
    dsimp only
    rw [if_neg (by simp)]
    have hle := msin_le s.freq 0
    have hge2 := msin_pos_small s.freq hf0 hlt
    rw [if_pos (show wrap16s (msin_sq015 s.freq 0 - 0) < -1 ∨ 1 < wrap16s (msin_sq015 s.freq 0 - 0) by
      right
      rw [show msin_sq015 s.freq 0 - 0 = msin_sq015 s.freq 0 by ring,
        wrap16s_id _ (by omega) (by omega)]
      omega)]
    exact ⟨rfl, rfl, rfl, rfl, rfl, rfl, rfl, rfl⟩
  · have hfq : s.freq = 0x4000 := by omega
    rw [hfq, search1_zero_bail s.val1]
    dsimp only
    rw [if_pos rfl]
    exact ⟨rfl, rfl, rfl, rfl, rfl, rfl, rfl, rfl⟩

/-- Stepping a state with no active interval: advance, then look
ahead. -/
theorem gen_step_pp_false (s : GenState) (hpp : s.pp = false) (hf : s.freq ≠ 0) :
    gen_step s = gen_pp_lookahead
      { s with phi := (s.phi + s.freq) % 65536, sidx := (s.sidx + 1) % 65536 } := by
  simp only [gen_step, hpp]
  rw [if_neg hf]
  simp

/-- Output on a state with no active interval is the plain modulated
sine. -/
theorem gen_output_pp_false (s : GenState) (hpp : s.pp = false) :
    gen_output s = msin_sq015 s.phi s.att := by
  simp [gen_output, hpp]

/-- The coupling invariant survives one `gen_step` on each side. -/
theorem ppInv_step (f : Nat) (hf0 : 0 < f) (hf1 : f ≤ 0x4000) (t1 t2 : GenState)
    (h : ppInv f t1 t2) : ppInv f (gen_step t1) (gen_step t2) := by
  obtain ⟨h1, h2, h3, h4, h5, h6, h7, h8, h9, h10, h11⟩ := h
  rw [gen_step_pp_false t1 h1 (by omega), gen_step_pp_false t2 h7 (by omega),
    lookahead_en_false { t2 with phi := (t2.phi + t2.freq) % 65536, sidx := (t2.sidx + 1) % 65536 }
      (by simpa using h8)]
  have hz := lookahead_zero_fail
    { t1 with phi := (t1.phi + t1.freq) % 65536, sidx := (t1.sidx + 1) % 65536 }
    (by simpa using h2) (by simpa using h5) (by simpa using h6) (by simpa using h4)
    (by simpa using (show 0 < t1.freq by omega)) (by simpa using (show t1.freq ≤ 0x4000 by omega))
  obtain ⟨z1, z2, z3, z4, z5, z6, z7, z8⟩ := hz
  refine ⟨by simpa [h1] using z1, by simpa [h2] using z2, by simpa [h3] using z3,
    by simpa [h4] using z5, by simpa [h5] using z6, by simpa [h6] using z7,
    by simp [h7], by simp [h8], by simp [h9], by simp [h10], ?_⟩
  rw [z4]
  simp only [h3, h9, h11]

/-- Under the coupling invariant the two generators emit the same sample at
every future step. -/
theorem genOutAt_eq_of_ppInv (f : Nat) (hf0 : 0 < f) (hf1 : f ≤ 0x4000) :
    ∀ k t1 t2, ppInv f t1 t2 → genOutAt t1 k = genOutAt t2 k := by
  intro k
  induction k with
  | zero =>
    intro t1 t2 h
    obtain ⟨h1, h2, h3, h4, h5, h6, h7, h8, h9, h10, h11⟩ := h
    simp only [genOutAt]
    rw [gen_output_pp_false t1 h1, gen_output_pp_false t2 h7, h4, h10, h11]
  | succ k ih =>
    intro t1 t2 h
    simp only [genOutAt]
    exact ih _ _ (ppInv_step f hf0 hf1 t1 t2 h)

/-- Initialising the zero descriptor is the identity (`msin(0, 0) = 0`). -/
theorem gen_init_zero : gen_init zeroState = zeroState :=
  rfl

/-- Setting the frequency on the zero descriptor with postprocessing disabled. -/
theorem gen_set_freq_zero (f : Nat) (hf0 : 0 < f) :
    gen_set_freq zeroState f = ⟨f, 0, 0, false, false, 0, 0, 0, 0, 0, 0, 0, 0, 0, 0, 0, 0, 0⟩ := by
  simp only [gen_set_freq, gen_pp_restart]
  split
  · next => exact lookahead_en_false _ rfl
  · next h => exact absurd hf0 (by simpa using h)

/-- Setting phase 0 fixes the configured descriptor in place. -/
theorem gen_set_phi_zero (f : Nat) (hf0 : 0 < f) :
    gen_set_phi ⟨f, 0, 0, false, false, 0, 0, 0, 0, 0, 0, 0, 0, 0, 0, 0, 0, 0⟩ 0 =
      ⟨f, 0, 0, false, false, 0, 0, 0, 0, 0, 0, 0, 0, 0, 0, 0, 0, 0⟩ := by
  simp only [gen_set_phi, gen_pp_restart]
  split
  · next => exact lookahead_en_false _ rfl
  · next h => exact absurd hf0 (by simpa using h)

/-- Setting attenuation 0 fixes the configured descriptor in place. -/
theorem gen_set_att_zero (f : Nat) (hf0 : 0 < f) :
    gen_set_att ⟨f, 0, 0, false, false, 0, 0, 0, 0, 0, 0, 0, 0, 0, 0, 0, 0, 0⟩ 0 =
      ⟨f, 0, 0, false, false, 0, 0, 0, 0, 0, 0, 0, 0, 0, 0, 0, 0, 0⟩ := by
  simp only [gen_set_att, gen_pp_restart]
  split
  · next => exact lookahead_en_false _ rfl
  · next h => exact absurd hf0 (by simpa using h)

/-- The pp-disabled configuration at phase 0 evaluates to an explicit
descriptor. -/
theorem genConfig_false_eq (f : Nat) (hf0 : 0 < f) :
    genConfig f 0 0 false = ⟨f, 0, 0, false, false, 0, 0, 0, 0, 0, 0, 0, 0, 0, 0, 0, 0, 0⟩ := by
  simp only [genConfig, gen_init_zero, gen_set_freq_zero f hf0, gen_set_phi_zero f hf0,
    gen_set_att_zero f hf0]
  simp only [gen_set_pp, gen_pp_restart]
  split
  · next => exact lookahead_en_false _ rfl
  · next h => exact absurd hf0 (by simpa using h)

/-- The pp-enabled configuration at phase 0 is one lookahead away from the
same explicit descriptor with `en = true`. -/
theorem genConfig_true_eq (f : Nat) (hf0 : 0 < f) :
    genConfig f 0 0 true =
      gen_pp_lookahead ⟨f, 0, 0, true, false, 0, 0, 0, 0, 0, 0, 0, 0, 0, 0, 0, 0, 0⟩ := by
  simp only [genConfig, gen_init_zero, gen_set_freq_zero f hf0, gen_set_phi_zero f hf0,
    gen_set_att_zero f hf0]
  simp only [gen_set_pp, gen_pp_restart]
  split
  · next => rfl
  · next h => exact absurd hf0 (by simpa using h)

/-- The two freshly configured generators satisfy the coupling invariant. -/
theorem genConfig_ppInv (f : Nat) (hf0 : 0 < f) (hf1 : f ≤ 0x4000) :
    ppInv f (genConfig f 0 0 true) (genConfig f 0 0 false) := by
  rw [genConfig_true_eq f hf0, genConfig_false_eq f hf0]
  have hz := lookahead_zero_fail ⟨f, 0, 0, true, false, 0, 0, 0, 0, 0, 0, 0, 0, 0, 0, 0, 0, 0⟩
    rfl rfl rfl rfl (by simpa using hf0) (by simpa using hf1)
  obtain ⟨z1, z2, z3, z4, z5, z6, z7, z8⟩ := hz
  exact ⟨z1, z2, by simpa using z3, z5, z6, z7, rfl, rfl, rfl, rfl, by simpa using z4⟩

/-- C5 counterexample: at `att = 0`, `freq = 24` and initial phase `0x3F9A`
(just below the positive peak, where consecutive SQ0.15 codes 32766 and
32767 meet), configuring with postprocessing enabled activates an interval
(`sampl = 4`, `steps = 2`) and the emitted stream differs from the plain
stream already at sample index 1 (pattern `32766` versus plain `32767`). -/
theorem C5_counterexample :
    genOutAt (genConfig 24 0x3F9A 0 true) 1 ≠ genOutAt (genConfig 24 0x3F9A 0 false) 1 := by
  decide

/-- C5 (amended): for `att = 0` and initial phase 0, for every frequency
`0 < freq <= 0x4000`, the sample stream with postprocessing enabled is
identical, sample for sample, to the stream with postprocessing disabled
(every lookahead fails from the zero-phase origin, so the pattern generator
never engages).  The claim's arbitrary initial phase had to be restricted:
near the sine peak the lookahead does activate and changes the stream. -/
theorem C5_pp_neutral_phase0 (f k : Nat) (hf0 : 0 < f) (hf1 : f ≤ 0x4000) :
    genOutAt (genConfig f 0 0 true) k = genOutAt (genConfig f 0 0 false) k :=
  genOutAt_eq_of_ppInv f hf0 hf1 k _ _ (genConfig_ppInv f hf0 hf1)

/-- Witness for C5 at `freq = 3`, sample 5. -/
theorem C5_pp_neutral_phase0_witness :
    genOutAt (genConfig 3 0 0 true) 5 = genOutAt (genConfig 3 0 0 false) 5 :=
  C5_pp_neutral_phase0 3 5 (by norm_num) (by norm_num)

/-! ## Claim C10: the divisors of `gen_output` are never zero -/

/-- The lookahead establishes the divisor invariant: it either leaves
`pp = 0`, or activates with `steps = sqrt_ui16 sampl >= 2`, and the table
square root always satisfies `steps² <= sampl`. -/
theorem divInv_lookahead (s : GenState) (hpp : s.pp = false) :
    divInv (gen_pp_lookahead s) := by
  unfold divInv
  simp only [gen_pp_lookahead]
  split
  · intro hact; simp [hpp] at hact
  · rcases h1 : search1 s.phi0 s.freq s.att s.val0 0x4001 s.phi0 s.val1 0 with ⟨f1, p1, c1, v1⟩
    dsimp only
    split
    · intro hact; simp [hpp] at hact
    · split
      · intro hact; simp [hpp] at hact
      · rcases h2 : search1 p1 s.freq s.att v1 0x4001 p1 s.val2 0 with ⟨f2, p2, c2, v2⟩
        dsimp only
        split
        · intro hact; simp [hpp] at hact
        · split
          · next hs =>
            intro _
            refine ⟨by simpa using hs, ?_, by simp⟩
            simpa using sqrt_ui16_sq_le (c1 + c2 / 2)
          · next hs => intro hact; simp [hpp] at hact

/-- A restart establishes the divisor invariant. -/
theorem divInv_restart (s : GenState) : divInv (gen_pp_restart s) := by
  simp only [gen_pp_restart]
  split
  · exact divInv_lookahead _ (by simp)
  · intro hact; simp at hact

/-- A step preserves the divisor invariant. -/
theorem divInv_step (s : GenState) (h : divInv s) : divInv (gen_step s) := by
  simp only [gen_step]
  split
  · exact h
  · split
    · split
      · exact divInv_lookahead _ (by simp)
      · next hcon => exact absurd (by simp : _ = false) hcon
    · split
      · next hppf => exact divInv_lookahead _ hppf
      · next hppf =>
        intro hact
        simpa using h (by simpa using hact)

/-- Every reachable state satisfies the divisor invariant. -/
theorem reachable_divInv (s : GenState) (hr : Reachable s) : divInv s := by
  induction hr with
  | init s => exact divInv_restart _
  | set_freq s f hs hf ih => exact divInv_restart _
  | set_phi s p hs hp ih => exact divInv_restart _
  | set_att s a hs ha ih => exact divInv_restart _
  | set_pp s b hs ih => exact divInv_restart _
  | step s hs ih => exact divInv_step _ ih

/-- C10: in every reachable generator state with an active interval
(`pp = 1`), the pattern geometry satisfies `msize >= steps >= 2`, so the
divisors `msize` (of `midx / msize` and `midx % msize`) and `steps` (of
`iidx % steps`) in `gen_output` are nonzero. -/
theorem C10_no_div_by_zero (s : GenState) (hr : Reachable s) (hpp : s.pp = true) :
    2 ≤ s.steps ∧ s.steps ≤ s.msize ∧ 0 < s.steps ∧ 0 < s.msize := by
  obtain ⟨h1, h2, h3⟩ := reachable_divInv s hr hpp
  have hmsize : s.steps ≤ s.msize := by
    rw [h3]
    exact (Nat.le_div_iff_mul_le (by omega)).mpr h2
  exact ⟨h1, hmsize, by omega, by omega⟩

/-- Witness for C10: the configuration `freq = 24`, `phi = 0x3F9A`,
`att = 0`, `pp` enabled is reachable and activates an interval. -/
theorem C10_no_div_by_zero_witness :
    2 ≤ (genConfig 24 0x3F9A 0 true).steps ∧
    (genConfig 24 0x3F9A 0 true).steps ≤ (genConfig 24 0x3F9A 0 true).msize ∧
    0 < (genConfig 24 0x3F9A 0 true).steps ∧ 0 < (genConfig 24 0x3F9A 0 true).msize := by
  refine C10_no_div_by_zero _ ?_ (by decide)
  exact Reachable.set_pp _ true (Reachable.set_att _ 0 (Reachable.set_phi _ 0x3F9A
    (Reachable.set_freq _ 24 (Reachable.init zeroState) (by norm_num)) (by norm_num))
    (by norm_num))

end SineGen
